import Mathlib

/-
  Verification of the chat-normalization and bot-analysis logic of the
  kenedi_bk backend (src/unnamed/part_004, src/server.js, src/unnamed/part_006).

  JavaScript values flowing through the handlers are modelled by the
  inductive type JSVal below.  JSON.parse is modelled by the executable
  parser jparse (restrictions, noted where relevant: numbers are integers,
  and the \u escape is not supported).  JSON.stringify and the implicit
  String() coercion are modelled by jstringify and jsToString.
-/

inductive JSVal where
  | undef : JSVal
  | null : JSVal
  | bool : Bool → JSVal
  | num : Int → JSVal
  | str : String → JSVal
  | arr : List JSVal → JSVal
  | obj : List (String × JSVal) → JSVal

/-- JavaScript truthiness: undefined, null, false, 0 and the empty string
are falsy; every object and array (even empty) is truthy. -/
def truthy : JSVal → Bool
  | .undef => false
  | .null => false
  | .bool b => b
  | .num n => n != 0
  | .str s => s != ""
  | .arr _ => true
  | .obj _ => true

def isStr : JSVal → Bool
  | .str _ => true
  | _ => false

/-- The values for which the source event loop takes the
`typeof content === 'object' && content !== null` branch (arrays included,
null excluded). -/
def isObjLike : JSVal → Bool
  | .arr _ => true
  | .obj _ => true
  | _ => false

/-- Property lookup on a parsed object: the last binding of a key wins,
as with JavaScript object construction; anything else yields undefined. -/
def jfieldList : List (String × JSVal) → String → JSVal
  | [], _ => .undef
  | (k', v) :: rest, k =>
    match jfieldList rest k with
    | .undef => if k' = k then v else .undef
    | r => r

def jfield : JSVal → String → JSVal
  | .obj fs, k => jfieldList fs k
  | _, _ => .undef

mutual

/-- Size measure used to bound the recursion of the unwrapper: a string
weighs its length plus one, composites weigh one plus their parts. -/
def szJ : JSVal → Nat
  | .undef => 1
  | .null => 1
  | .bool _ => 1
  | .num _ => 1
  | .str s => s.length + 1
  | .arr xs => 1 + szL xs
  | .obj fs => 1 + szO fs

def szL : List JSVal → Nat
  | [] => 0
  | x :: xs => szJ x + szL xs

def szO : List (String × JSVal) → Nat
  | [] => 0
  | (_, v) :: fs => szJ v + szO fs

end

-- ==========================================
-- Character and string helpers
-- ==========================================

def lbrace : Char := Char.ofNat 123
def rbrace : Char := Char.ofNat 125

/-- The whitespace characters recognised by both String.prototype.trim and
the JSON grammar (model restriction: the exotic Unicode spaces accepted by
trim are not included). -/
def jsWs (c : Char) : Bool := c = ' ' || c = '\t' || c = '\n' || c = '\r'

def skipWs (cs : List Char) : List Char := cs.dropWhile jsWs

def trimList (cs : List Char) : List Char :=
  ((cs.dropWhile jsWs).reverse.dropWhile jsWs).reverse

def strTrim (s : String) : String := String.mk (trimList s.data)

def strStarts (s p : String) : Bool := p.data.isPrefixOf s.data

/-- String.prototype.includes. -/
def listContains : List Char → List Char → Bool
  | cs, sub =>
    if sub.isPrefixOf cs then true
    else
      match cs with
      | [] => false
      | _ :: t => listContains t sub

def containsSub (s sub : String) : Bool := listContains s.data sub.data

def lowerStr (s : String) : String := String.mk (s.data.map Char.toLower)

/-- Substring match of a Postgres ilike %pat% filter (case-insensitive). -/
def ilikeContains (s pat : String) : Bool :=
  listContains (lowerStr s).data (lowerStr pat).data

/-- The phone normalization used across the repo: strip every non-digit. -/
def digitsOf (s : String) : String := String.mk (s.data.filter Char.isDigit)

/-- substring(0, n): the first n characters. -/
def strTake (s : String) (n : Nat) : String := String.mk (s.data.take n)

-- ==========================================
-- JSON.parse (executable model)
-- ==========================================

def escChar (c : Char) : Option Char :=
  if c = '"' then some '"'
  else if c = '\\' then some '\\'
  else if c = '/' then some '/'
  else if c = 'b' then some (Char.ofNat 8)
  else if c = 'f' then some (Char.ofNat 12)
  else if c = 'n' then some '\n'
  else if c = 'r' then some '\r'
  else if c = 't' then some '\t'
  else none

/-- Body of a JSON string literal, after the opening quote: returns the
decoded characters and the input after the closing quote. -/
def parseStrBody : List Char → Option (List Char × List Char)
  | [] => none
  | c :: rest =>
    if c = '"' then some ([], rest)
    else if c = '\\' then
      match rest with
      | [] => none
      | e :: rest2 =>
        match escChar e with
        | none => none
        | some ce =>
          match parseStrBody rest2 with
          | none => none
          | some (body, rem) => some (ce :: body, rem)
    else if c.val < 32 then none
    else
      match parseStrBody rest with
      | none => none
      | some (body, rem) => some (c :: body, rem)

def digitsToNat (cs : List Char) : Nat :=
  cs.foldl (fun a c => a * 10 + (c.toNat - 48)) 0

/-- JSON number (model restriction: integers only; a fraction or exponent
makes the surrounding document unparseable in this model). -/
def parseNum : List Char → Option (JSVal × List Char)
  | [] => none
  | c :: rest =>
    if c = '-' then
      let ds := rest.takeWhile Char.isDigit
      if ds.isEmpty then none
      else some (.num (-(Int.ofNat (digitsToNat ds))), rest.dropWhile Char.isDigit)
    else
      let ds := (c :: rest).takeWhile Char.isDigit
      if ds.isEmpty then none
      else some (.num (Int.ofNat (digitsToNat ds)), (c :: rest).dropWhile Char.isDigit)

mutual

def parseVal : Nat → List Char → Option (JSVal × List Char)
  | 0, _ => none
  | f + 1, cs0 =>
    let cs := skipWs cs0
    match cs with
    | [] => none
    | c :: rest =>
      if c = '"' then
        match parseStrBody rest with
        | none => none
        | some (body, rem) => some (.str (String.mk body), rem)
      else if c = lbrace then
        match skipWs rest with
        | [] => none
        | c2 :: rest2 =>
          if c2 = rbrace then some (.obj [], rest2)
          else
            match parseObjElems f (c2 :: rest2) with
            | none => none
            | some (fs, rem) => some (.obj fs, rem)
      else if c = '[' then
        match skipWs rest with
        | [] => none
        | c2 :: rest2 =>
          if c2 = ']' then some (.arr [], rest2)
          else
            match parseArrElems f (c2 :: rest2) with
            | none => none
            | some (vs, rem) => some (.arr vs, rem)
      else if c = 't' then
        if ['t', 'r', 'u', 'e'].isPrefixOf cs then some (.bool true, cs.drop 4) else none
      else if c = 'f' then
        if ['f', 'a', 'l', 's', 'e'].isPrefixOf cs then some (.bool false, cs.drop 5) else none
      else if c = 'n' then
        if ['n', 'u', 'l', 'l'].isPrefixOf cs then some (.null, cs.drop 4) else none
      else if c = '-' || c.isDigit then parseNum cs
      else none

def parseArrElems : Nat → List Char → Option (List JSVal × List Char)
  | 0, _ => none
  | f + 1, cs =>
    match parseVal f cs with
    | none => none
    | some (v, rest) =>
      match skipWs rest with
      | [] => none
      | c :: r2 =>
        if c = ']' then some ([v], r2)
        else if c = ',' then
          match parseArrElems f (skipWs r2) with
          | none => none
          | some (vs, rem) => some (v :: vs, rem)
        else none

def parseObjElems : Nat → List Char → Option (List (String × JSVal) × List Char)
  | 0, _ => none
  | f + 1, cs =>
    match cs with
    | [] => none
    | c :: rest =>
      if c = '"' then
        match parseStrBody rest with
        | none => none
        | some (key, r1) =>
          match skipWs r1 with
          | [] => none
          | c2 :: r2 =>
            if c2 = ':' then
              match parseVal f (skipWs r2) with
              | none => none
              | some (v, r3) =>
                match skipWs r3 with
                | [] => none
                | c3 :: r4 =>
                  if c3 = rbrace then some ([(String.mk key, v)], r4)
                  else if c3 = ',' then
                    match parseObjElems f (skipWs r4) with
                    | none => none
                    | some (fs, rem) => some ((String.mk key, v) :: fs, rem)
                  else none
            else none
      else none

end

/-- JSON.parse: whole-input parse, leading and trailing whitespace allowed. -/
def jparse (s : String) : Option JSVal :=
  match parseVal (s.data.length + 1) s.data with
  | none => none
  | some (v, rest) => if (skipWs rest).isEmpty then some v else none

-- ==========================================
-- JSON.stringify and String() coercion
-- ==========================================

def hexDigit (n : Nat) : Char :=
  if n < 10 then Char.ofNat (48 + n) else Char.ofNat (87 + n)

/-- JSON.stringify escaping of one character of a string. -/
def escJ (c : Char) : List Char :=
  if c = '"' then ['\\', '"']
  else if c = '\\' then ['\\', '\\']
  else if c = '\n' then ['\\', 'n']
  else if c = '\t' then ['\\', 't']
  else if c = '\r' then ['\\', 'r']
  else if c = Char.ofNat 8 then ['\\', 'b']
  else if c = Char.ofNat 12 then ['\\', 'f']
  else if c.val < 32 then
    ['\\', 'u', '0', '0', hexDigit (c.toNat / 16), hexDigit (c.toNat % 16)]
  else [c]

def quoteJson (s : String) : String :=
  String.mk ('"' :: s.data.foldr (fun c acc => escJ c ++ acc) ['"'])

mutual

/-- JSON.stringify (model restriction: a top-level undefined renders as
"null"; the source only ever stringifies objects and arrays). -/
def jstringify : JSVal → String
  | .undef => "null"
  | .null => "null"
  | .bool true => "true"
  | .bool false => "false"
  | .num n => toString n
  | .str s => quoteJson s
  | .arr xs => String.mk ('[' :: (jstringifyArr xs).data ++ [']'])
  | .obj fs => String.mk (lbrace :: (jstringifyObj fs).data ++ [rbrace])

def jstringifyArr : List JSVal → String
  | [] => ""
  | [x] => jstringify x
  | x :: y :: xs => jstringify x ++ "," ++ jstringifyArr (y :: xs)

def jstringifyObj : List (String × JSVal) → String
  | [] => ""
  | (k, v) :: fs =>
    match v with
    | .undef => jstringifyObj fs
    | v' =>
      let item := quoteJson k ++ ":" ++ jstringify v'
      let rest := jstringifyObj fs
      if rest.isEmpty then item else item ++ "," ++ rest

end

mutual

/-- The implicit String() coercion of JavaScript (template literals,
Array.prototype.join): objects render as the [object Object] tag, arrays
join their elements with commas, null and undefined elements render empty. -/
def jsToString : JSVal → String
  | .undef => "undefined"
  | .null => "null"
  | .bool true => "true"
  | .bool false => "false"
  | .num n => toString n
  | .str s => s
  | .obj _ => "[object Object]"
  | .arr xs => jsToStringArr xs

def jsToStringArr : List JSVal → String
  | [] => ""
  | [x] => jsToStringElem x
  | x :: y :: xs => jsToStringElem x ++ "," ++ jsToStringArr (y :: xs)

def jsToStringElem : JSVal → String
  | .undef => ""
  | .null => ""
  | .bool true => "true"
  | .bool false => "false"
  | .num n => toString n
  | .str s => s
  | .obj _ => "[object Object]"
  | .arr xs => jsToStringArr xs

end

-- ==========================================
-- cleanN8nMessage (src/unnamed/part_004 lines 87-137)
-- ==========================================

def msgPfx : String := "Mensaje de la persona:"

/-- The object-shaped tail of cleanN8nMessage (part_004 lines 110-133),
with the recursive self-call abstracted as rec.  Note that the text branch
returns the field verbatim, whatever its type. -/
def cleanStep (rec : JSVal → JSVal) (v : JSVal) : JSVal :=
  if isObjLike v then
    if truthy (jfield v "content") then rec (jfield v "content")
    else if truthy (jfield v "output") && truthy (jfield (jfield v "output") "message") then
      rec (jfield (jfield v "output") "message")
    else if truthy (jfield v "message") then rec (jfield v "message")
    else if truthy (jfield v "text") then jfield v "text"
    else .str (jstringify v)
  else .str (jsToString v)

/-- Fueled form of cleanN8nMessage.  The source recursion has no depth
bound; the fuel is shown sufficient (and therefore irrelevant) whenever it
exceeds the szJ measure of the payload.  In the prefix branch the source
calls replace(p, "") on a string known to start with p, which is dropping
the first p.length characters. -/
def cleanF : Nat → JSVal → JSVal
  | 0, raw => .str (jsToString raw)
  | f + 1, raw =>
    if truthy raw = false then .str ""
    else
      match raw with
      | .str s =>
        let t := strTrim s
        if strStarts t msgPfx then .str (strTrim (String.mk (t.data.drop msgPfx.length)))
        else if strStarts t "\x7b" || strStarts t "[" then
          match jparse t with
          | some v => cleanStep (cleanF f) v
          | none => .str t
        else .str s
      | v => cleanStep (cleanF f) v

def cleanN8nMessage (raw : JSVal) : JSVal := cleanF (szJ raw + 1) raw

-- ==========================================
-- Chat mapping of src/server.js lines 521-551
-- ==========================================

/-- Strict string comparison of the source, parsed.type === 'human' style:
true only when the value is that exact string. -/
def isStrEq (v : JSVal) (s : String) : Bool :=
  match v with
  | .str t => t = s
  | _ => false

/-- Blank-line join of Array.prototype.filter(Boolean).join of the source:
each kept element is coerced with String(). -/
def joinBlank (vs : List JSVal) : String :=
  String.intercalate "\n\n" ((vs.filter truthy).map jsToString)

/-- The inner content cleaning of the server.js /api/students/:id chat
mapping (lines 536-546), applied to the already-parsed inner JSON. -/
def serverCleanParsed (inner orig : JSVal) : JSVal :=
  let out := jfield inner "output"
  if truthy out && truthy (jfield out "message") then jfield out "message"
  else if truthy out then
    .str (joinBlank [jfield out "message", jfield out "mensaje_1",
                     jfield out "mensaje_2", jfield out "mensaje_3"])
  else orig

/-- The full content transform of the server.js chat mapping (lines
533-548): only strings that mention output or start with a brace are
parsed; every failure leaves the content unchanged. -/
def serverCleanContent (content : JSVal) : JSVal :=
  match content with
  | .str s =>
    if containsSub s "output" || strStarts (strTrim s) "\x7b" then
      match jparse s with
      | some inner => serverCleanParsed inner (.str s)
      | none => .str s
    else .str s
  | v => v

/-- The role ternary of server.js line 530: rawMsg.type === 'human'. -/
def roleTernary (v : JSVal) : String :=
  if isStrEq (jfield v "type") "human" then "user" else "assistant"

-- ==========================================
-- Role detection of src/unnamed/part_004 lines 360-390
-- ==========================================

/-- The part_004 /api/students/:id role detector.  A string payload is
first screened for the two quoted literals, then parsed; when the parse
throws, or the parsed value is null (whose property access throws), the
catch block falls back to the prefix test on the original text.  Payloads
that are neither strings nor objects keep the assistant default. -/
def roleDetect004 (msg : JSVal) : String :=
  match msg with
  | .str s =>
    if containsSub s "\"type\": \"human\"" || containsSub s "\"role\": \"user\"" then "user"
    else
      match jparse s with
      | some .null =>
        if containsSub s msgPfx then "user" else "assistant"
      | some parsed =>
        if isStrEq (jfield parsed "type") "human" || isStrEq (jfield parsed "role") "user" then
          "user"
        else "assistant"
      | none =>
        if containsSub s msgPfx then "user" else "assistant"
  | .null => "assistant"
  | .obj fs =>
    if isStrEq (jfieldList fs "type") "human" || isStrEq (jfieldList fs "role") "user" then
      "user"
    else "assistant"
  | .arr _ => "assistant"
  | _ => "assistant"

-- ==========================================
-- nodeReadChat (src/unnamed/part_004 lines 538-557)
-- ==========================================

structure ChatRow where
  id : Int
  session_id : String
  message : JSVal

structure StudentRec where
  full_name : JSVal
  telefono1 : Option String
  telefono2 : Option String

/-- student.telefonoN ? telefonoN.replace(nonDigits, '') : 'X' --- a null
or empty phone falls back to the literal placeholder. -/
def phoneKey : Option String → String
  | none => "X"
  | some t => if t.isEmpty then "X" else digitsOf t

def matchesPhones (p1 p2 : String) (r : ChatRow) : Bool :=
  ilikeContains r.session_id p1 || ilikeContains r.session_id p2

/-- Insertion step of the order('id', descending) model. -/
def insertDesc (r : ChatRow) : List ChatRow → List ChatRow
  | [] => [r]
  | x :: xs => if x.id ≤ r.id then r :: x :: xs else x :: insertDesc r xs

def sortDescById : List ChatRow → List ChatRow
  | [] => []
  | x :: xs => insertDesc x (sortDescById xs)

/-- The n8n_chat_histories query of nodeReadChat: filter by phone
substring, order by id descending, limit 20. -/
def chatQuery (db : List ChatRow) (p1 p2 : String) : List ChatRow :=
  (sortDescById (db.filter (matchesPhones p1 p2))).take 20

/-- nodeReadChat of part_004: the fetched page is mapped to bullet lines
and reversed back to chronological order.  The template literal coerces
the cleaned value with String(). -/
def nodeReadChat (student : Option StudentRec) (db : List ChatRow) : String :=
  match student with
  | none => "Sin historial."
  | some st =>
    let p1 := phoneKey st.telefono1
    let p2 := phoneKey st.telefono2
    let chats := chatQuery db p1 p2
    if chats.isEmpty then "No hay historial reciente."
    else
      String.intercalate "\n"
        ((chats.map (fun c => "- " ++ jsToString (cleanN8nMessage c.message))).reverse)

-- ==========================================
-- nodeReadDrive (part_004 lines 559-578 and part_006 lines 488-530)
-- ==========================================

structure DocRow where
  document_type : String
  drive_file_id : String
  file_name : String
  mime_type : String

/-- Per-document text extraction of part_004 nodeReadDrive: PDF text is
truncated to 1000 characters, any other mime yields the bracketed file
name placeholder. -/
def extractText004 (pdfFn : String → String) (doc : DocRow) (bytes : String) : String :=
  if doc.mime_type = "application/pdf" then "(PDF): " ++ strTake (pdfFn bytes) 1000 ++ "..."
  else "[Archivo: " ++ doc.file_name ++ "]"

/-- Per-document text extraction of part_006 nodeReadDrive: text and json
mimes embed the decoded bytes themselves; the remaining mimes yield a
placeholder that does not mention the file name. -/
def extractText006 (pdfFn : String → String) (doc : DocRow) (bytes : String) : String :=
  if doc.mime_type = "application/pdf" then pdfFn bytes
  else if containsSub doc.mime_type "text" || containsSub doc.mime_type "json" then bytes
  else "[Archivo de imagen o formato no legible]"

def docBlock004 (pdfFn : String → String) (doc : DocRow) (bytes : String) : String :=
  "\n--- DOC: " ++ doc.document_type ++ " ---\n" ++ extractText004 pdfFn doc bytes ++ "\n"

/-- part_006 builds the block from the extraction truncated to 1500
characters. -/
def docBlock006 (pdfFn : String → String) (doc : DocRow) (bytes : String) : String :=
  "\n--- DOC: " ++ doc.document_type ++ " ---\n"
    ++ strTake (extractText006 pdfFn doc bytes) 1500 ++ "...\n"

-- ==========================================
-- getBotStatus and /api/bot/analyze (part_004 lines 513-519 and 580-599)
-- ==========================================

/-- getBotStatus: a query error or missing row yields true; otherwise the
stored is_active value is returned as-is (it need not be a boolean). -/
def getBotStatus (row : Option JSVal) : JSVal :=
  match row with
  | none => .bool true
  | some v => v

inductive Resp where
  | ok : String → Resp
  | err : String → Resp
deriving DecidableEq

/-- The strict systemActive === false test of the handler. -/
def isFalseLit : JSVal → Bool
  | .bool false => true
  | _ => false

/-- External collaborators and table state visible to one /api/bot/analyze
request.  gen models the chat-completion call (none: network failure or an
empty choices array). -/
structure Env where
  botRow : Option JSVal
  hasApiKey : Bool
  student : Option StudentRec
  chats : List ChatRow
  docs : List DocRow
  driveOn : Bool
  driveFetch : String → Option String
  pdfFn : String → String
  gen : String → Option String

/-- nodeReadDrive of part_004: a disabled drive client or a failed fetch
skips the document silently. -/
def nodeReadDrive (env : Env) : String :=
  if env.docs.isEmpty then "No hay documentos."
  else
    env.docs.foldl
      (fun acc doc =>
        if env.driveOn = false then acc
        else
          match env.driveFetch doc.drive_file_id with
          | none => acc
          | some bytes => acc ++ docBlock004 env.pdfFn doc bytes)
      ""

def refusalMsg : String := "⛔ IA desactivada por administrador."

def apiKeyMsg : String := "⚠️ Error: Falta API Key."

def botErrMsg : String := "Error análisis IA"

/-- The /api/bot/analyze handler of part_004 (lines 580-599), returning
the number of generation calls made together with the response.  A missing
student row makes the template literal throw before the generation call;
an empty choices array after the call still counts the call. -/
def analyzeBot (env : Env) (question : String) : Nat × Resp :=
  let systemActive := getBotStatus env.botRow
  if isFalseLit systemActive then (0, .ok refusalMsg)
  else if env.hasApiKey = false then (0, .ok apiKeyMsg)
  else
    match env.student with
    | none => (0, .err botErrMsg)
    | some st =>
      let chatContext := nodeReadChat (some st) env.chats
      let docsContext := nodeReadDrive env
      let prompt := "ERES: Asistente administrativo Universidad Kennedy. ALUMNO: "
        ++ jsToString st.full_name ++ ". HISTORIAL: " ++ chatContext
        ++ ". DOCS: " ++ docsContext ++ ". PREGUNTA: \"" ++ question
        ++ "\". RESPONDE BREVE."
      match env.gen prompt with
      | some ans => (1, .ok ans)
      | none => (1, .err botErrMsg)

-- ==========================================
-- Spec-side definitions and concrete fixtures
-- ==========================================

/-- Written after the words of the specification, for comparison with the
server.js chat-mapping transform: concatenate the mensaje fields that are
present, skipping absent ones, with blank-line separators. -/
def specMensajeConcat (m1 m2 m3 : Option String) : String :=
  String.intercalate "\n\n" ([m1, m2, m3].filterMap id)

/-- An optional object field: absent when the option is none. -/
def optField (k : String) : Option String → List (String × JSVal)
  | none => []
  | some s => [(k, .str s)]

/-- An output object carrying the given optional mensaje fields. -/
def mkOut (m1 m2 m3 : Option String) : JSVal :=
  .obj (optField "mensaje_1" m1 ++ optField "mensaje_2" m2 ++ optField "mensaje_3" m3)

def demoStudent : StudentRec := ⟨.str "Juan Perez", some "383-4000000", none⟩

/-- Three stored messages for the demo student, deliberately out of id
order in the table, plus one message of another session. -/
def demoDb : List ChatRow :=
  [⟨12, "3834000000@c.us", .str "tres"⟩,
   ⟨10, "3834000000@c.us", .str "uno"⟩,
   ⟨99, "other@c.us", .str "ajeno"⟩,
   ⟨11, "3834000000@c.us", .str "dos"⟩]

def demoDocTxt : DocRow := ⟨"dni", "file1", "secret.txt", "text/plain"⟩

def demoDocImg : DocRow := ⟨"foto", "file2", "foto.png", "image/png"⟩

def demoDocPdf : DocRow := ⟨"titulo", "file3", "titulo.pdf", "application/pdf"⟩

/-- An environment with the bot explicitly disabled. -/
def demoEnvOff : Env :=
  ⟨some (.bool false), true, some demoStudent, demoDb, [], false,
   fun _ => none, fun _ => "", fun _ => some "hola"⟩

/-- An environment whose bot-settings lookup failed (no row). -/
def demoEnvNoRow : Env :=
  ⟨none, true, some demoStudent, demoDb, [], false,
   fun _ => none, fun _ => "", fun _ => some "hola"⟩

-- ==========================================
-- Basic length lemmas
-- ==========================================

theorem skipWs_len (cs : List Char) : (skipWs cs).length ≤ cs.length :=
  (List.dropWhile_sublist jsWs).length_le

theorem trimList_len (cs : List Char) : (trimList cs).length ≤ cs.length := by
  unfold trimList
  rw [List.length_reverse]
  calc ((cs.dropWhile jsWs).reverse.dropWhile jsWs).length
      ≤ (cs.dropWhile jsWs).reverse.length := (List.dropWhile_sublist jsWs).length_le
    _ = (cs.dropWhile jsWs).length := List.length_reverse _
    _ ≤ cs.length := (List.dropWhile_sublist jsWs).length_le

theorem strTrim_len (s : String) : (strTrim s).length ≤ s.length := trimList_len s.data

theorem isPrefixOf_len {p cs : List Char} (h : p.isPrefixOf cs = true) :
    p.length ≤ cs.length :=
  (List.isPrefixOf_iff_prefix.mp h).length_le

theorem parseStrBody_size : ∀ cs body rem,
    parseStrBody cs = some (body, rem) → body.length + 1 + rem.length ≤ cs.length := by
  intro cs
  induction cs using parseStrBody.induct with
  | case1 =>
    intro body rem h
    rw [parseStrBody.eq_def] at h
    simp at h
  | case2 t =>
    intro body rem h
    rw [parseStrBody.eq_def] at h
    simp at h
    rcases h with ⟨rfl, rfl⟩
    simp [Nat.add_comm]
  | case3 h1 =>
    intro body rem h
    rw [parseStrBody.eq_def] at h
    simp at h
  | case4 e t he h1 =>
    intro body rem h
    rw [parseStrBody.eq_def] at h
    simp [he] at h
  | case5 e t ce he hnone h1 ih =>
    intro body rem h
    rw [parseStrBody.eq_def] at h
    simp [he, hnone] at h
  | case6 e t ce he body' rem' hsome h1 ih =>
    intro body rem h
    rw [parseStrBody.eq_def] at h
    simp [he, hsome] at h
    rcases h with ⟨rfl, rfl⟩
    have := ih body' rem' hsome
    simp only [List.length_cons]
    omega
  | case7 c t h1 h2 h3 =>
    intro body rem h
    rw [parseStrBody.eq_def] at h
    simp [h1, h2, h3] at h
  | case8 c t h1 h2 h3 hnone ih =>
    intro body rem h
    rw [parseStrBody.eq_def] at h
    simp [h1, h2, h3, hnone] at h
  | case9 c t h1 h2 h3 body' rem' hsome ih =>
    intro body rem h
    rw [parseStrBody.eq_def] at h
    simp [h1, h2, h3, hsome] at h
    rcases h with ⟨rfl, rfl⟩
    have := ih body' rem' hsome
    simp only [List.length_cons]
    omega

theorem szJ_pos : ∀ v, 1 ≤ szJ v := by
  intro v
  cases v <;> simp [szJ]

theorem parseNum_size : ∀ cs v rest, parseNum cs = some (v, rest) →
    szJ v + rest.length ≤ cs.length := by
  intro cs v rest h
  match cs with
  | [] => simp [parseNum] at h
  | c :: rest0 =>
    rw [parseNum.eq_def] at h
    by_cases hc : c = '-'
    · simp only [hc] at h
      simp only [if_true] at h
      by_cases he : (rest0.takeWhile Char.isDigit).isEmpty = true
      · simp [he] at h
      · rw [if_neg he] at h
        simp only [Option.some.injEq, Prod.mk.injEq] at h
        obtain ⟨rfl, rfl⟩ := h
        have hd := (List.dropWhile_sublist (l := rest0) Char.isDigit).length_le
        simp only [szJ, List.length_cons]
        omega
    · simp only [if_neg hc] at h
      by_cases he : ((c :: rest0).takeWhile Char.isDigit).isEmpty = true
      · simp [he] at h
      · rw [if_neg he] at h
        simp only [Option.some.injEq, Prod.mk.injEq] at h
        obtain ⟨rfl, rfl⟩ := h
        by_cases hdig : Char.isDigit c = true
        · have hstep : (c :: rest0).dropWhile Char.isDigit = rest0.dropWhile Char.isDigit := by
            simp [List.dropWhile, hdig]
          rw [hstep]
          have hd := (List.dropWhile_sublist (l := rest0) Char.isDigit).length_le
          simp only [szJ, List.length_cons]
          omega
        · exfalso
          apply he
          simp [List.takeWhile, Bool.of_not_eq_true hdig]

theorem parse_size : ∀ f,
    (∀ cs v rest, parseVal f cs = some (v, rest) → szJ v + rest.length ≤ cs.length) ∧
    (∀ cs vs rem, parseArrElems f cs = some (vs, rem) → szL vs + 1 + rem.length ≤ cs.length) ∧
    (∀ cs fs rem, parseObjElems f cs = some (fs, rem) → szO fs + 1 + rem.length ≤ cs.length) := by
  intro f
  induction f with
  | zero =>
    refine ⟨?_, ?_, ?_⟩ <;> intro cs a b h <;>
      simp [parseVal, parseArrElems, parseObjElems] at h
  | succ f ih =>
    obtain ⟨ihV, ihA, ihO⟩ := ih
    refine ⟨?_, ?_, ?_⟩
    · intro cs0 v rest h
      simp only [parseVal] at h
      have hlen0 := skipWs_len cs0
      cases hcs : skipWs cs0 with
      | nil => simp [hcs] at h
      | cons c rest1 =>
        simp only [hcs] at h
        rw [hcs] at hlen0
        simp only [List.length_cons] at hlen0
        by_cases h1 : c = '"'
        · rw [if_pos h1] at h
          cases hpb : parseStrBody rest1 with
          | none => simp [hpb] at h
          | some br =>
            obtain ⟨body, rem⟩ := br
            simp only [hpb, Option.some.injEq, Prod.mk.injEq] at h
            obtain ⟨rfl, rfl⟩ := h
            have hps := parseStrBody_size rest1 body rem hpb
            simp only [szJ]
            have hsm : (String.mk body).length = body.length := rfl
            rw [hsm]
            omega
        · rw [if_neg h1] at h
          by_cases h2 : c = lbrace
          · rw [if_pos h2] at h
            cases hws2 : skipWs rest1 with
            | nil => simp [hws2] at h
            | cons c2 rest2 =>
              simp only [hws2] at h
              have hl2 : rest2.length + 1 ≤ rest1.length := by
                have := skipWs_len rest1
                rw [hws2] at this
                simpa using this
              by_cases h3 : c2 = rbrace
              · rw [if_pos h3] at h
                simp only [Option.some.injEq, Prod.mk.injEq] at h
                obtain ⟨rfl, rfl⟩ := h
                simp only [szJ, szO]
                omega
              · rw [if_neg h3] at h
                cases hobj : parseObjElems f (c2 :: rest2) with
                | none => simp [hobj] at h
                | some pr =>
                  obtain ⟨fs, rem⟩ := pr
                  simp only [hobj, Option.some.injEq, Prod.mk.injEq] at h
                  obtain ⟨rfl, rfl⟩ := h
                  have hrec := ihO _ _ _ hobj
                  simp only [List.length_cons] at hrec
                  simp only [szJ]
                  omega
          · rw [if_neg h2] at h
            by_cases h3 : c = '['
            · rw [if_pos h3] at h
              cases hws2 : skipWs rest1 with
              | nil => simp [hws2] at h
              | cons c2 rest2 =>
                simp only [hws2] at h
                have hl2 : rest2.length + 1 ≤ rest1.length := by
                  have := skipWs_len rest1
                  rw [hws2] at this
                  simpa using this
                by_cases h4 : c2 = ']'
                · rw [if_pos h4] at h
                  simp only [Option.some.injEq, Prod.mk.injEq] at h
                  obtain ⟨rfl, rfl⟩ := h
                  simp only [szJ, szL]
                  omega
                · rw [if_neg h4] at h
                  cases harr : parseArrElems f (c2 :: rest2) with
                  | none => simp [harr] at h
                  | some pr =>
                    obtain ⟨vs, rem⟩ := pr
                    simp only [harr, Option.some.injEq, Prod.mk.injEq] at h
                    obtain ⟨rfl, rfl⟩ := h
                    have hrec := ihA _ _ _ harr
                    simp only [List.length_cons] at hrec
                    simp only [szJ]
                    omega
            · rw [if_neg h3] at h
              by_cases h4 : c = 't'
              · rw [if_pos h4] at h
                by_cases hpre : ['t', 'r', 'u', 'e'].isPrefixOf (c :: rest1) = true
                · rw [if_pos hpre] at h
                  simp only [Option.some.injEq, Prod.mk.injEq] at h
                  obtain ⟨rfl, rfl⟩ := h
                  have hpl := isPrefixOf_len hpre
                  simp only [List.length_cons] at hpl
                  simp only [szJ, List.length_drop, List.length_cons]
                  omega
                · rw [if_neg hpre] at h
                  simp at h
              · rw [if_neg h4] at h
                by_cases h5 : c = 'f'
                · rw [if_pos h5] at h
                  by_cases hpre : ['f', 'a', 'l', 's', 'e'].isPrefixOf (c :: rest1) = true
                  · rw [if_pos hpre] at h
                    simp only [Option.some.injEq, Prod.mk.injEq] at h
                    obtain ⟨rfl, rfl⟩ := h
                    have hpl := isPrefixOf_len hpre
                    simp only [List.length_cons] at hpl
                    simp only [szJ, List.length_drop, List.length_cons]
                    omega
                  · rw [if_neg hpre] at h
                    simp at h
                · rw [if_neg h5] at h
                  by_cases h6 : c = 'n'
                  · rw [if_pos h6] at h
                    by_cases hpre : ['n', 'u', 'l', 'l'].isPrefixOf (c :: rest1) = true
                    · rw [if_pos hpre] at h
                      simp only [Option.some.injEq, Prod.mk.injEq] at h
                      obtain ⟨rfl, rfl⟩ := h
                      have hpl := isPrefixOf_len hpre
                      simp only [List.length_cons] at hpl
                      simp only [szJ, List.length_drop, List.length_cons]
                      omega
                    · rw [if_neg hpre] at h
                      simp at h
                  · rw [if_neg h6] at h
                    by_cases h7 : (c = '-' || c.isDigit) = true
                    · rw [if_pos h7] at h
                      have hrec := parseNum_size _ _ _ h
                      simp only [List.length_cons] at hrec
                      omega
                    · rw [if_neg h7] at h
                      simp at h
    · intro cs vs rem h
      simp only [parseArrElems] at h
      cases hv : parseVal f cs with
      | none => simp [hv] at h
      | some pr =>
        obtain ⟨v, rest⟩ := pr
        simp only [hv] at h
        have hV := ihV _ _ _ hv
        cases hws : skipWs rest with
        | nil => simp [hws] at h
        | cons c r2 =>
          simp only [hws] at h
          have hl2 : r2.length + 1 ≤ rest.length := by
            have := skipWs_len rest
            rw [hws] at this
            simpa using this
          by_cases h1 : c = ']'
          · rw [if_pos h1] at h
            simp only [Option.some.injEq, Prod.mk.injEq] at h
            obtain ⟨rfl, rfl⟩ := h
            simp only [szL]
            omega
          · rw [if_neg h1] at h
            by_cases h2 : c = ','
            · rw [if_pos h2] at h
              cases ha : parseArrElems f (skipWs r2) with
              | none => simp [ha] at h
              | some pr2 =>
                obtain ⟨vs2, rem2⟩ := pr2
                simp only [ha, Option.some.injEq, Prod.mk.injEq] at h
                obtain ⟨rfl, rfl⟩ := h
                have hA := ihA _ _ _ ha
                have hsk := skipWs_len r2
                simp only [szL]
                omega
            · rw [if_neg h2] at h
              simp at h
    · intro cs fs rem h
      cases cs with
      | nil => simp [parseObjElems] at h
      | cons c rest =>
        simp only [parseObjElems] at h
        by_cases h1 : c = '"'
        · rw [if_pos h1] at h
          cases hk : parseStrBody rest with
          | none => simp [hk] at h
          | some pr =>
            obtain ⟨key, r1⟩ := pr
            simp only [hk] at h
            have hK := parseStrBody_size rest key r1 hk
            cases hw1 : skipWs r1 with
            | nil => simp [hw1] at h
            | cons c2 r2 =>
              simp only [hw1] at h
              have hl1 : r2.length + 1 ≤ r1.length := by
                have := skipWs_len r1
                rw [hw1] at this
                simpa using this
              by_cases h2 : c2 = ':'
              · rw [if_pos h2] at h
                cases hv : parseVal f (skipWs r2) with
                | none => simp [hv] at h
                | some pr2 =>
                  obtain ⟨v, r3⟩ := pr2
                  simp only [hv] at h
                  have hV := ihV _ _ _ hv
                  have hsk2 := skipWs_len r2
                  cases hw3 : skipWs r3 with
                  | nil => simp [hw3] at h
                  | cons c3 r4 =>
                    simp only [hw3] at h
                    have hl3 : r4.length + 1 ≤ r3.length := by
                      have := skipWs_len r3
                      rw [hw3] at this
                      simpa using this
                    by_cases h3 : c3 = rbrace
                    · rw [if_pos h3] at h
                      simp only [Option.some.injEq, Prod.mk.injEq] at h
                      obtain ⟨rfl, rfl⟩ := h
                      simp only [szO, List.length_cons]
                      omega
                    · rw [if_neg h3] at h
                      by_cases h4 : c3 = ','
                      · rw [if_pos h4] at h
                        cases ho : parseObjElems f (skipWs r4) with
                        | none => simp [ho] at h
                        | some pr3 =>
                          obtain ⟨fs2, rem2⟩ := pr3
                          simp only [ho, Option.some.injEq, Prod.mk.injEq] at h
                          obtain ⟨rfl, rfl⟩ := h
                          have hO := ihO _ _ _ ho
                          have hsk4 := skipWs_len r4
                          simp only [szO, List.length_cons]
                          omega
                      · rw [if_neg h4] at h
                        simp at h
              · rw [if_neg h2] at h
                simp at h
        · rw [if_neg h1] at h
          simp at h

theorem jparse_size {s : String} {v : JSVal} (h : jparse s = some v) : szJ v ≤ s.length := by
  unfold jparse at h
  cases hp : parseVal (s.data.length + 1) s.data with
  | none =>
    rw [hp] at h
    simp at h
  | some pr =>
    obtain ⟨v0, rest⟩ := pr
    rw [hp] at h
    simp at h
    obtain ⟨he, h2⟩ := h
    subst h2
    have hsz := (parse_size (s.data.length + 1)).1 s.data v0 rest hp
    show szJ v0 ≤ s.data.length
    omega

-- ==========================================
-- Size of field lookups, and fuel irrelevance of cleanF
-- ==========================================

theorem jfieldList_size : ∀ fs k, jfieldList fs k = .undef ∨ szJ (jfieldList fs k) ≤ szO fs := by
  intro fs k
  induction fs with
  | nil => left; rfl
  | cons p rest ih =>
    obtain ⟨k', v⟩ := p
    cases hr : jfieldList rest k with
    | undef =>
      by_cases hk : k' = k
      · right
        simp only [jfieldList, hr, if_pos hk, szO]
        omega
      · left
        simp only [jfieldList, hr, if_neg hk]
    | _ =>
      rcases ih with ih1 | ih2
      · rw [ih1] at hr; cases hr
      all_goals
        right
        rw [hr] at ih2
        simp only [jfieldList, hr, szO]
        omega

theorem jfield_truthy_size {v : JSVal} {k : String} (h : truthy (jfield v k) = true) :
    szJ (jfield v k) < szJ v := by
  cases v with
  | obj fs =>
    rcases jfieldList_size fs k with h1 | h2
    · rw [jfield] at h ⊢
      rw [h1] at h
      simp [truthy] at h
    · rw [jfield] at h ⊢
      simp only [szJ]
      omega
  | _ => simp [jfield, truthy] at h

theorem cleanStep_congr {g h : JSVal → JSVal} (v : JSVal)
    (H : ∀ w, truthy w = true → szJ w < szJ v → g w = h w) :
    cleanStep g v = cleanStep h v := by
  unfold cleanStep
  by_cases h0 : isObjLike v = true
  · rw [if_pos h0, if_pos h0]
    by_cases h1 : truthy (jfield v "content") = true
    · rw [if_pos h1, if_pos h1]
      exact H _ h1 (jfield_truthy_size h1)
    · rw [if_neg h1, if_neg h1]
      by_cases h2 : (truthy (jfield v "output") && truthy (jfield (jfield v "output") "message")) = true
      · rw [if_pos h2, if_pos h2]
        rw [Bool.and_eq_true] at h2
        have hs1 := jfield_truthy_size h2.1
        have hs2 := jfield_truthy_size h2.2
        exact H _ h2.2 (by omega)
      · rw [if_neg h2, if_neg h2]
        by_cases h3 : truthy (jfield v "message") = true
        · rw [if_pos h3, if_pos h3]
          exact H _ h3 (jfield_truthy_size h3)
        · rw [if_neg h3, if_neg h3]
  · rw [if_neg h0, if_neg h0]

theorem cleanF_fuel : ∀ f p, szJ p < f → cleanF f p = cleanF (szJ p + 1) p := by
  intro f
  induction f using Nat.strong_induction_on with
  | _ f IH =>
    intro p hp
    match f, hp with
    | f' + 1, hp =>
      have hple : szJ p ≤ f' := by omega
      have hcongr : ∀ (v : JSVal), szJ v ≤ szJ p →
          cleanStep (cleanF f') v = cleanStep (cleanF (szJ p)) v := by
        intro v hv
        apply cleanStep_congr
        intro w hw hwv
        have hpos := szJ_pos p
        have h1 : szJ w < f' := by omega
        have h2 : szJ w < szJ p := by omega
        rw [IH f' (by omega) w h1, IH (szJ p) (by omega) w h2]
      cases p with
      | str s =>
        simp only [cleanF]
        by_cases ht : truthy (.str s) = false
        · rw [if_pos ht, if_pos ht]
        · rw [if_neg ht, if_neg ht]
          by_cases hpf : strStarts (strTrim s) msgPfx = true
          · rw [if_pos hpf, if_pos hpf]
          · rw [if_neg hpf, if_neg hpf]
            by_cases hbr : (strStarts (strTrim s) "\x7b" || strStarts (strTrim s) "[") = true
            · rw [if_pos hbr, if_pos hbr]
              cases hj : jparse (strTrim s) with
              | none => simp only [hj]
              | some v =>
                simp only [hj]
                apply hcongr
                have hv := jparse_size hj
                have htl := strTrim_len s
                simp only [szJ]
                omega
            · rw [if_neg hbr, if_neg hbr]
      | undef => simp [cleanF, truthy]
      | null => simp [cleanF, truthy]
      | bool b =>
        simp only [cleanF]
        by_cases ht : truthy (.bool b) = false
        · rw [if_pos ht, if_pos ht]
        · rw [if_neg ht, if_neg ht]
          exact hcongr _ (le_refl _)
      | num n =>
        simp only [cleanF]
        by_cases ht : truthy (.num n) = false
        · rw [if_pos ht, if_pos ht]
        · rw [if_neg ht, if_neg ht]
          exact hcongr _ (le_refl _)
      | arr xs =>
        simp only [cleanF]
        rw [if_neg (by simp [truthy]), if_neg (by simp [truthy])]
        exact hcongr _ (le_refl _)
      | obj fs =>
        simp only [cleanF]
        rw [if_neg (by simp [truthy]), if_neg (by simp [truthy])]
        exact hcongr _ (le_refl _)


theorem cleanStep_str_or_truthy {g : JSVal → JSVal}
    (hg : ∀ w, (isStr (g w) || truthy (g w)) = true) (v : JSVal) :
    (isStr (cleanStep g v) || truthy (cleanStep g v)) = true := by
  unfold cleanStep
  by_cases h0 : isObjLike v = true
  · rw [if_pos h0]
    by_cases h1 : truthy (jfield v "content") = true
    · rw [if_pos h1]; exact hg _
    · rw [if_neg h1]
      by_cases h2 : (truthy (jfield v "output") && truthy (jfield (jfield v "output") "message")) = true
      · rw [if_pos h2]; exact hg _
      · rw [if_neg h2]
        by_cases h3 : truthy (jfield v "message") = true
        · rw [if_pos h3]; exact hg _
        · rw [if_neg h3]
          by_cases h4 : truthy (jfield v "text") = true
          · rw [if_pos h4]
            simp [h4]
          · rw [if_neg h4]
            simp [isStr]
  · rw [if_neg h0]
    simp [isStr]

theorem cleanF_str_or_truthy : ∀ f p, (isStr (cleanF f p) || truthy (cleanF f p)) = true := by
  intro f
  induction f with
  | zero => intro p; simp [cleanF, isStr]
  | succ f ih =>
    intro p
    cases p with
    | str s =>
      simp only [cleanF]
      by_cases ht : truthy (.str s) = false
      · rw [if_pos ht]; simp [isStr]
      · rw [if_neg ht]
        by_cases hpf : strStarts (strTrim s) msgPfx = true
        · rw [if_pos hpf]; simp [isStr]
        · rw [if_neg hpf]
          by_cases hbr : (strStarts (strTrim s) "\x7b" || strStarts (strTrim s) "[") = true
          · rw [if_pos hbr]
            cases hj : jparse (strTrim s) with
            | none => simp [isStr]
            | some v => exact cleanStep_str_or_truthy ih v
          · rw [if_neg hbr]; simp [isStr]
    | undef => simp [cleanF, truthy, isStr]
    | null => simp [cleanF, truthy, isStr]
    | bool b =>
      simp only [cleanF]
      by_cases ht : truthy (.bool b) = false
      · rw [if_pos ht]; simp [isStr]
      · rw [if_neg ht]; exact cleanStep_str_or_truthy ih _
    | num n =>
      simp only [cleanF]
      by_cases ht : truthy (.num n) = false
      · rw [if_pos ht]; simp [isStr]
      · rw [if_neg ht]; exact cleanStep_str_or_truthy ih _
    | arr xs =>
      simp only [cleanF]
      rw [if_neg (by simp [truthy])]
      exact cleanStep_str_or_truthy ih _
    | obj fs =>
      simp only [cleanF]
      rw [if_neg (by simp [truthy])]
      exact cleanStep_str_or_truthy ih _

/-- Plain text that neither carries the person-message marker nor looks
like serialized JSON passes through the unwrapper unchanged. -/
theorem cleanStr_id (s : String) (h1 : strStarts (strTrim s) msgPfx = false)
    (h2 : strStarts (strTrim s) "\x7b" = false) (h3 : strStarts (strTrim s) "[" = false) :
    cleanN8nMessage (.str s) = .str s := by
  unfold cleanN8nMessage
  simp only [cleanF]
  by_cases ht : truthy (.str s) = false
  · rw [if_pos ht]
    simp only [truthy, bne_eq_false_iff_eq] at ht
    rw [ht]
  · rw [if_neg ht]
    rw [if_neg (by simp [h1])]
    rw [if_neg (by simp [h2, h3])]

-- ==========================================
-- Ordering lemmas for the chat page
-- ==========================================

theorem mem_insertDesc {r x : ChatRow} : ∀ {l : List ChatRow},
    x ∈ insertDesc r l ↔ x = r ∨ x ∈ l := by
  intro l
  induction l with
  | nil => simp [insertDesc]
  | cons y ys ih =>
    by_cases h : y.id ≤ r.id
    · simp only [insertDesc, if_pos h]
      constructor
      · intro hx
        rcases List.mem_cons.mp hx with h1 | h1
        · left; exact h1
        · right; exact h1
      · intro hx
        rcases hx with h1 | h1
        · exact List.mem_cons.mpr (Or.inl h1)
        · exact List.mem_cons.mpr (Or.inr h1)
    · simp only [insertDesc, if_neg h]
      constructor
      · intro hx
        rcases List.mem_cons.mp hx with h1 | h1
        · right; exact List.mem_cons.mpr (Or.inl h1)
        · rcases ih.mp h1 with h2 | h2
          · left; exact h2
          · right; exact List.mem_cons.mpr (Or.inr h2)
      · intro hx
        rcases hx with h1 | h1
        · exact List.mem_cons.mpr (Or.inr (ih.mpr (Or.inl h1)))
        · rcases List.mem_cons.mp h1 with h2 | h2
          · exact List.mem_cons.mpr (Or.inl h2)
          · exact List.mem_cons.mpr (Or.inr (ih.mpr (Or.inr h2)))

theorem pairwise_insertDesc {r : ChatRow} : ∀ {l : List ChatRow},
    l.Pairwise (fun a b => b.id ≤ a.id) →
    (insertDesc r l).Pairwise (fun a b => b.id ≤ a.id) := by
  intro l
  induction l with
  | nil => intro _; simp [insertDesc]
  | cons y ys ih =>
    intro h
    rw [List.pairwise_cons] at h
    obtain ⟨hy, hys⟩ := h
    by_cases hc : y.id ≤ r.id
    · simp only [insertDesc, if_pos hc]
      rw [List.pairwise_cons]
      constructor
      · intro a ha
        rcases List.mem_cons.mp ha with h1 | h1
        · subst h1; exact hc
        · exact le_trans (hy a h1) hc
      · rw [List.pairwise_cons]
        exact ⟨hy, hys⟩
    · simp only [insertDesc, if_neg hc]
      rw [List.pairwise_cons]
      constructor
      · intro a ha
        rcases mem_insertDesc.mp ha with h1 | h1
        · subst h1; omega
        · exact hy a h1
      · exact ih hys

theorem pairwise_sortDescById : ∀ l : List ChatRow,
    (sortDescById l).Pairwise (fun a b => b.id ≤ a.id) := by
  intro l
  induction l with
  | nil => simp [sortDescById]
  | cons x xs ih => exact pairwise_insertDesc ih

theorem chatQuery_pairwise (db : List ChatRow) (p1 p2 : String) :
    (chatQuery db p1 p2).Pairwise (fun a b => b.id ≤ a.id) :=
  (pairwise_sortDescById (db.filter (matchesPhones p1 p2))).sublist (List.take_sublist _ _)

theorem transcript_sorted (db : List ChatRow) (p1 p2 : String) :
    ((chatQuery db p1 p2).reverse).Pairwise (fun a b => a.id ≤ b.id) := by
  rw [List.pairwise_reverse]
  exact chatQuery_pairwise db p1 p2

theorem chatQuery_topK (db : List ChatRow) (p1 p2 : String) :
    ∀ a ∈ chatQuery db p1 p2,
      ∀ b ∈ (sortDescById (db.filter (matchesPhones p1 p2))).drop 20, b.id ≤ a.id := by
  have hsorted := pairwise_sortDescById (db.filter (matchesPhones p1 p2))
  have hsplit := List.take_append_drop 20 (sortDescById (db.filter (matchesPhones p1 p2)))
  rw [← hsplit] at hsorted
  exact (List.pairwise_append.mp hsorted).2.2

theorem listContains_append : ∀ (pre n post : List Char),
    listContains (pre ++ (n ++ post)) n = true := by
  intro pre n post
  induction pre with
  | nil =>
    rw [listContains.eq_def]
    simp only [List.nil_append]
    rw [if_pos (List.isPrefixOf_iff_prefix.mpr (List.prefix_append n post))]
  | cons c pre' ih =>
    rw [listContains.eq_def]
    simp only [List.cons_append]
    by_cases h : n.isPrefixOf (c :: (pre' ++ (n ++ post))) = true
    · rw [if_pos h]
    · rw [if_neg h]
      exact ih

theorem containsSub_append (a n b : String) : containsSub (a ++ n ++ b) n = true := by
  unfold containsSub
  have hd : (a ++ n ++ b).data = a.data ++ (n.data ++ b.data) := by
    rw [String.data_append, String.data_append, List.append_assoc]
  rw [hd]
  exact listContains_append a.data n.data b.data

theorem serverCleanParsed_mensajes (m1 m2 m3 : Option String) (orig : JSVal)
    (h1 : ∀ s, m1 = some s → s ≠ "") (h2 : ∀ s, m2 = some s → s ≠ "")
    (h3 : ∀ s, m3 = some s → s ≠ "") :
    serverCleanParsed (.obj [("output", mkOut m1 m2 m3)]) orig
      = .str (specMensajeConcat m1 m2 m3) := by
  cases m1 with
  | none =>
    cases m2 with
    | none =>
      cases m3 with
      | none =>
        simp [serverCleanParsed, mkOut, optField, jfield, jfieldList, joinBlank, specMensajeConcat, jsToString, truthy]
      | some s3 =>
        simp [serverCleanParsed, mkOut, optField, jfield, jfieldList, joinBlank, specMensajeConcat, jsToString, truthy, h3 _ rfl]
    | some s2 =>
      cases m3 with
      | none =>
        simp [serverCleanParsed, mkOut, optField, jfield, jfieldList, joinBlank, specMensajeConcat, jsToString, truthy, h2 _ rfl]
      | some s3 =>
        simp [serverCleanParsed, mkOut, optField, jfield, jfieldList, joinBlank, specMensajeConcat, jsToString, truthy, h2 _ rfl, h3 _ rfl]
  | some s1 =>
    cases m2 with
    | none =>
      cases m3 with
      | none =>
        simp [serverCleanParsed, mkOut, optField, jfield, jfieldList, joinBlank, specMensajeConcat, jsToString, truthy, h1 _ rfl]
      | some s3 =>
        simp [serverCleanParsed, mkOut, optField, jfield, jfieldList, joinBlank, specMensajeConcat, jsToString, truthy, h1 _ rfl, h3 _ rfl]
    | some s2 =>
      cases m3 with
      | none =>
        simp [serverCleanParsed, mkOut, optField, jfield, jfieldList, joinBlank, specMensajeConcat, jsToString, truthy, h1 _ rfl, h2 _ rfl]
      | some s3 =>
        simp [serverCleanParsed, mkOut, optField, jfield, jfieldList, joinBlank, specMensajeConcat, jsToString, truthy, h1 _ rfl, h2 _ rfl, h3 _ rfl]

-- ==========================================
-- Claim theorems
-- ==========================================

/-- Claim C1, counterexample: the payload whose object carries a numeric
text field makes cleanN8nMessage return that number verbatim, so the
result is not of string type. -/
theorem C1_counterexample :
    cleanN8nMessage (.obj [("text", .num 42)]) = .num 42 ∧
    isStr (cleanN8nMessage (.obj [("text", .num 42)])) = false :=
  ⟨rfl, rfl⟩

/-- Claim C1 (amended): for every payload the unwrapper terminates without
throwing and returns a value; the result is of string type except that the
text branch may return the (necessarily truthy) text field verbatim. -/
theorem C1_unwrapper_total :
    ∀ p, (isStr (cleanN8nMessage p) || truthy (cleanN8nMessage p)) = true :=
  fun p => cleanF_str_or_truthy (szJ p + 1) p

/-- Claim C2, counterexample: on the JSON-encoded string of an output
object with mensaje_1 and mensaje_2, cleanN8nMessage has no mensaje branch
and falls through to JSON.stringify, returning the serialized object, not
the blank-line concatenation. -/
theorem C2_counterexample :
    cleanN8nMessage (.str "\x7b\"output\":\x7b\"mensaje_1\":\"A\",\"mensaje_2\":\"B\"\x7d\x7d")
      = .str "\x7b\"output\":\x7b\"mensaje_1\":\"A\",\"mensaje_2\":\"B\"\x7d\x7d" ∧
    JSVal.str "\x7b\"output\":\x7b\"mensaje_1\":\"A\",\"mensaje_2\":\"B\"\x7d\x7d"
      ≠ .str "A\n\nB" :=
  ⟨rfl, by simp⟩

/-- Claim C2 (amended): the blank-line concatenation of present mensaje
fields is performed by the server.js chat-mapping transform, not by
cleanN8nMessage; on the quoted payload it yields A blank-line B, and in
general, when output has no truthy message, it concatenates exactly the
present (nonempty) mensaje_1/mensaje_2/mensaje_3 fields in order. -/
theorem C2_server_mapping_concat :
    serverCleanContent (.str "\x7b\"output\":\x7b\"mensaje_1\":\"A\",\"mensaje_2\":\"B\"\x7d\x7d")
      = .str "A\n\nB" ∧
    ∀ (m1 m2 m3 : Option String) (orig : JSVal),
      (∀ s, m1 = some s → s ≠ "") → (∀ s, m2 = some s → s ≠ "") →
      (∀ s, m3 = some s → s ≠ "") →
      serverCleanParsed (.obj [("output", mkOut m1 m2 m3)]) orig
        = .str (specMensajeConcat m1 m2 m3) :=
  ⟨rfl, fun m1 m2 m3 orig h1 h2 h3 => serverCleanParsed_mensajes m1 m2 m3 orig h1 h2 h3⟩

/-- Claim C2, witness: the general concatenation statement at the concrete
fields A and B. -/
theorem C2_server_mapping_concat_witness :
    serverCleanParsed (.obj [("output", mkOut (some "A") (some "B") none)]) (.str "o")
      = .str "A\n\nB" := by
  have h := C2_server_mapping_concat.2 (some "A") (some "B") none (.str "o")
    (by intro s hs; cases hs; decide)
    (by intro s hs; cases hs; decide)
    (fun s hs => nomatch hs)
  exact h

/-- Claim C3: whenever the stored bot flag is false, the analyze handler
makes no generation call and answers with the fixed refusal string. -/
theorem C3_disabled_short_circuit :
    ∀ (env : Env) (q : String), getBotStatus env.botRow = .bool false →
      analyzeBot env q = (0, .ok refusalMsg) := by
  intro env q h
  simp [analyzeBot, h, isFalseLit]

/-- Claim C3, witness: the disabled environment short-circuits. -/
theorem C3_disabled_short_circuit_witness :
    analyzeBot demoEnvOff "como va" = (0, .ok refusalMsg) :=
  C3_disabled_short_circuit demoEnvOff "como va" rfl

/-- Claim C4: the chat page is the at-most-20 most recent matching rows,
fetched in descending id order and reversed, so the transcript is in
ascending id order; on the demo table with matching ids 10, 11, 12 the
transcript lists exactly those three messages chronologically. -/
theorem C4_transcript_order :
    ∀ (db : List ChatRow) (p1 p2 : String),
      ((chatQuery db p1 p2).reverse).Pairwise (fun a b => a.id ≤ b.id) ∧
      (chatQuery db p1 p2).length ≤ 20 ∧
      (∀ a ∈ chatQuery db p1 p2,
        ∀ b ∈ (sortDescById (db.filter (matchesPhones p1 p2))).drop 20, b.id ≤ a.id) ∧
      ((chatQuery demoDb (phoneKey demoStudent.telefono1)
          (phoneKey demoStudent.telefono2)).reverse.map (fun c => c.id) = [10, 11, 12]) ∧
      nodeReadChat (some demoStudent) demoDb = "- uno\n- dos\n- tres" := by
  intro db p1 p2
  refine ⟨transcript_sorted db p1 p2, ?_, chatQuery_topK db p1 p2, rfl, rfl⟩
  exact List.length_take_le 20 _

/-- Claim C4, witness: the concrete transcript for the demo student. -/
theorem C4_transcript_order_witness :
    nodeReadChat (some demoStudent) demoDb = "- uno\n- dos\n- tres" :=
  (C4_transcript_order demoDb "3834000000" "X").2.2.2.2

/-- Claim C5, counterexample: an object whose type is not human but whose
role field is user is classified as user by the part_004 detector, not as
the assistant default the claim asserts for every non-human type. -/
theorem C5_counterexample :
    roleDetect004 (.obj [("type", .str "ai"), ("role", .str "user")]) = "user" ∧
    ("user" : String) ≠ "assistant" :=
  ⟨rfl, by simp⟩

/-- Claim C5 (amended): on object payloads the part_004 detector answers
user exactly when type is the string human or role is the string user,
while the server.js ternary answers user exactly when type is human; both
answer user on the quoted human payload, and the part_004 detector answers
assistant on the quoted ai payload. -/
theorem C5_role_classifier :
    (∀ fs, roleDetect004 (.obj fs) = "user" ↔
      (isStrEq (jfieldList fs "type") "human" || isStrEq (jfieldList fs "role") "user") = true) ∧
    (∀ v, roleTernary v = "user" ↔ isStrEq (jfield v "type") "human" = true) ∧
    roleDetect004 (.str "\x7b\"type\":\"human\",\"content\":\"hi\"\x7d") = "user" ∧
    roleDetect004 (.str "\x7b\"type\":\"ai\",\"content\":\"hi\"\x7d") = "assistant" ∧
    roleTernary (.obj [("type", .str "human"), ("content", .str "hi")]) = "user" ∧
    roleTernary (.obj [("type", .str "ai"), ("role", .str "user")]) = "assistant" := by
  refine ⟨?_, ?_, rfl, rfl, rfl, rfl⟩
  · intro fs
    by_cases hc : (isStrEq (jfieldList fs "type") "human" || isStrEq (jfieldList fs "role") "user") = true
    · simp [roleDetect004, jfield, hc]
    · simp [roleDetect004, jfield, hc]
  · intro v
    by_cases hc : isStrEq (jfield v "type") "human" = true
    · simp [roleTernary, hc]
    · simp [roleTernary, hc]

/-- Claim C6, counterexample: the string of a space followed by an open
brace and a letter has no person-message marker and is not parseable as
JSON, yet the unwrapper returns its trimmed form, not the input itself. -/
theorem C6_counterexample :
    strStarts " \x7ba" msgPfx = false ∧
    jparse " \x7ba" = none ∧
    cleanN8nMessage (.str " \x7ba") = .str "\x7ba" ∧
    cleanN8nMessage (.str " \x7ba") ≠ .str " \x7ba" := by
  refine ⟨rfl, rfl, rfl, ?_⟩
  rw [show cleanN8nMessage (.str " \x7ba") = .str "\x7ba" from rfl]
  simp

/-- Claim C6 (amended): the unwrapper is the identity on strings whose
trimmed form neither starts with the person-message marker nor with a
brace or bracket; when the trimmed form does start with a brace or bracket
and fails to parse, the unwrapper returns the trimmed string instead. -/
theorem C6_plain_text_identity :
    (∀ s, strStarts (strTrim s) msgPfx = false → strStarts (strTrim s) "\x7b" = false →
      strStarts (strTrim s) "[" = false → cleanN8nMessage (.str s) = .str s) ∧
    (∀ s, strStarts (strTrim s) msgPfx = false →
      (strStarts (strTrim s) "\x7b" || strStarts (strTrim s) "[") = true →
      jparse (strTrim s) = none → cleanN8nMessage (.str s) = .str (strTrim s)) := by
  constructor
  · exact cleanStr_id
  · intro s hpf hbr hnone
    unfold cleanN8nMessage
    simp only [cleanF]
    by_cases ht : truthy (.str s) = false
    · exfalso
      simp only [truthy, bne_eq_false_iff_eq] at ht
      subst ht
      exact absurd hbr (by decide)
    · rw [if_neg ht]
      rw [if_neg (by simp [hpf])]
      rw [if_pos hbr]
      simp only [hnone]

/-- Claim C6, witness: identity on a concrete plain-text payload. -/
theorem C6_plain_text_identity_witness :
    cleanN8nMessage (.str "hola mundo") = .str "hola mundo" :=
  C6_plain_text_identity.1 "hola mundo" rfl rfl rfl

/-- Claim C7, counterexample: in the part_006 variant a text mime embeds
the decoded bytes themselves in the document block, and the non-text
placeholder does not contain the file name. -/
theorem C7_counterexample :
    extractText006 (fun _ => "") demoDocTxt "RAW-BYTES-123" = "RAW-BYTES-123" ∧
    containsSub (docBlock006 (fun _ => "") demoDocTxt "RAW-BYTES-123") "RAW-BYTES-123" = true ∧
    containsSub (extractText006 (fun _ => "") demoDocTxt "RAW-BYTES-123") "secret.txt" = false ∧
    extractText006 (fun _ => "") demoDocImg "bytes" = "[Archivo de imagen o formato no legible]" ∧
    containsSub (extractText006 (fun _ => "") demoDocImg "bytes") "foto.png" = false :=
  ⟨rfl, rfl, rfl, rfl, rfl⟩

/-- Claim C7 (amended): in the part_004 variant every non-PDF document
yields the bracketed file-name placeholder, a fixed string containing the
file name and independent of the fetched bytes. -/
theorem C7_part004_placeholder :
    ∀ (pdfFn : String → String) (doc : DocRow) (b1 b2 : String),
      doc.mime_type ≠ "application/pdf" →
      extractText004 pdfFn doc b1 = "[Archivo: " ++ doc.file_name ++ "]" ∧
      extractText004 pdfFn doc b1 = extractText004 pdfFn doc b2 ∧
      containsSub (extractText004 pdfFn doc b1) doc.file_name = true := by
  intro pdfFn doc b1 b2 h
  unfold extractText004
  rw [if_neg h, if_neg h]
  exact ⟨rfl, rfl, containsSub_append "[Archivo: " doc.file_name "]"⟩

/-- Claim C7, witness: the placeholder for the concrete text document. -/
theorem C7_part004_placeholder_witness :
    extractText004 (fun _ => "") demoDocTxt "bytes" = "[Archivo: secret.txt]" :=
  (C7_part004_placeholder (fun _ => "") demoDocTxt "bytes" "other" (by decide)).1

/-- Claim C8, counterexample: unwrapping the object whose text field is a
person-message string yields that string, and a second unwrapping strips
the marker, so the unwrapper is not idempotent. -/
theorem C8_counterexample :
    cleanN8nMessage (.obj [("text", .str "Mensaje de la persona: Hola")])
      = .str "Mensaje de la persona: Hola" ∧
    cleanN8nMessage (cleanN8nMessage (.obj [("text", .str "Mensaje de la persona: Hola")]))
      = .str "Hola" ∧
    cleanN8nMessage (cleanN8nMessage (.obj [("text", .str "Mensaje de la persona: Hola")]))
      ≠ cleanN8nMessage (.obj [("text", .str "Mensaje de la persona: Hola")]) := by
  refine ⟨rfl, rfl, ?_⟩
  rw [show cleanN8nMessage (.obj [("text", .str "Mensaje de la persona: Hola")])
    = .str "Mensaje de la persona: Hola" from rfl]
  rw [show cleanN8nMessage (.str "Mensaje de la persona: Hola") = .str "Hola" from rfl]
  simp

/-- Claim C8 (amended): the unwrapper is a pure function and is idempotent
on plain-text strings (trimmed form starting with neither the
person-message marker nor a brace nor a bracket); in general a second
application can strip further. -/
theorem C8_idempotent_plain_text :
    ∀ s, strStarts (strTrim s) msgPfx = false → strStarts (strTrim s) "\x7b" = false →
      strStarts (strTrim s) "[" = false →
      cleanN8nMessage (cleanN8nMessage (.str s)) = cleanN8nMessage (.str s) := by
  intro s h1 h2 h3
  rw [cleanStr_id s h1 h2 h3]
  exact cleanStr_id s h1 h2 h3

/-- Claim C8, witness: idempotence at a concrete plain-text payload. -/
theorem C8_idempotent_plain_text_witness :
    cleanN8nMessage (cleanN8nMessage (.str "buenas tardes")) = cleanN8nMessage (.str "buenas tardes") :=
  C8_idempotent_plain_text "buenas tardes" rfl rfl rfl

/-- Claim C9, counterexample: the unwrapper terminates on every finite
payload but does not always return a string; recursing through content
into a numeric text field returns a number. -/
theorem C9_counterexample :
    cleanN8nMessage (.obj [("content", .obj [("text", .num 7)])]) = .num 7 ∧
    isStr (cleanN8nMessage (.obj [("content", .obj [("text", .num 7)])])) = false :=
  ⟨rfl, rfl⟩

/-- Claim C9 (amended): the recursion of the unwrapper terminates on every
finite acyclic payload with no explicit depth bound: any fuel beyond the
szJ size of the payload computes the same value, the recursion descending
on nested fields and on re-parsed inner strings. -/
theorem C9_terminates :
    ∀ (f : Nat) (p : JSVal), szJ p < f → cleanF f p = cleanN8nMessage p :=
  cleanF_fuel

/-- Claim C9, witness: a large fuel computes the same value as the
size-bounded unwrapper on a concrete payload. -/
theorem C9_terminates_witness :
    cleanF 100 (.str "Mensaje de la persona: Hola") = cleanN8nMessage (.str "Mensaje de la persona: Hola") :=
  C9_terminates 100 (.str "Mensaje de la persona: Hola") (by decide)

/-- Claim C10: when the bot-settings lookup fails or returns no row,
getBotStatus yields true and the analyze handler proceeds to make exactly
one generation call instead of short-circuiting: the flag fails open. -/
theorem C10_fails_open :
    ∀ (env : Env) (q : String) (st : StudentRec),
      env.botRow = none → env.hasApiKey = true → env.student = some st →
      getBotStatus env.botRow = .bool true ∧ (analyzeBot env q).1 = 1 := by
  intro env q st h1 h2 h3
  refine ⟨by rw [h1]; rfl, ?_⟩
  simp only [analyzeBot, h1, h2, h3, getBotStatus, isFalseLit]
  cases env.gen ("ERES: Asistente administrativo Universidad Kennedy. ALUMNO: "
      ++ jsToString st.full_name ++ ". HISTORIAL: " ++ nodeReadChat (some st) env.chats
      ++ ". DOCS: " ++ nodeReadDrive env ++ ". PREGUNTA: \"" ++ q
      ++ "\". RESPONDE BREVE.") <;> rfl

/-- Claim C10, witness: the failed-lookup environment makes one generation
call. -/
theorem C10_fails_open_witness :
    getBotStatus demoEnvNoRow.botRow = .bool true ∧ (analyzeBot demoEnvNoRow "hola").1 = 1 :=
  C10_fails_open demoEnvNoRow "hola" demoStudent rfl rfl rfl
